import Mathlib

/-!
Shallow embedding of the roster-cleanup program (src/main.py) and proofs about
its column-classification and record-normalization engine (`bless_df`), together
with the filename logic of `main`.

Cells loaded by pandas are modelled by `PyVal`: a missing value (NaN), a text
value, or a non-text non-missing value (represented by an integer).  A raw
table (`RawDF`) is an ordered list of column names with positionally aligned
rows.  Line 115 of the source coerces every cell to its text representation
with `astype(str)` and only then calls `dropna(how='all')`; the embedding keeps
that order, so the table entering classification (`StrDF`) has only string
cells.  The output frame (`OutDF`) is column-oriented, with `Option String`
cells (`none` is `pd.NA`); `fillna('')` turns it into the final `FinalDF`.
-/

namespace Cleanup

/-- A value held in a pandas cell before text coercion: missing (NaN), a
Python `str`, or a non-text non-missing value (an int stands in for those). -/
inductive PyVal where
  | vna : PyVal
  | vstr : String → PyVal
  | vint : Int → PyVal
deriving DecidableEq, Repr

/-- Python `str(x)`: NaN prints as "nan", ints print in decimal. -/
def pyStr : PyVal → String
  | .vna => "nan"
  | .vstr s => s
  | .vint n => toString n

/-- A raw table as loaded: ordered column names and positionally aligned rows. -/
structure RawDF where
  names : List String
  rows : List (List PyVal)
deriving DecidableEq, Repr

/-- A table after `astype(str)`: every cell is a string. -/
structure StrDF where
  names : List String
  rows : List (List String)
deriving DecidableEq, Repr

/-- Line 115, first step: `df.astype(str)` coerces every cell to text. -/
def astypeStr (df : RawDF) : StrDF :=
  ⟨df.names, df.rows.map (fun r => r.map pyStr)⟩

/-- pandas `isna` on a cell of a string-typed frame: a Python `str` is never
missing, so after `astype(str)` this is constantly false. -/
def pdIsnaStr (_ : String) : Bool := false

/-- Line 115, second step: `dropna(how='all')` drops the rows whose cells are
all missing.  It runs after `astype(str)`, so it sees only string cells. -/
def dropnaAllStr (df : StrDF) : StrDF :=
  ⟨df.names, df.rows.filter (fun r => !(r.all pdIsnaStr))⟩

/-- Line 115: `df.astype(str).dropna(how='all').reset_index(drop=True)`.
`reset_index(drop=True)` is the identity in this positional model. -/
def cleanDf (raw : RawDF) : StrDF := dropnaAllStr (astypeStr raw)

/-- Column lookup `df[col]` on the cleaned table (first column of that name). -/
def StrDF.col (df : StrDF) (c : String) : List String :=
  match df.names.findIdx? (· == c) with
  | none => []
  | some i => df.rows.map (fun r => r.getD i "")

/-- Line 108: column names that must never be mistaken for the student id. -/
def excludedColumns : List String := ["site", "location", "building"]

/-- Python `str.lower()`: every character lowercased. -/
def lowerStr (s : String) : String := String.mk (s.toList.map Char.toLower)

/-- Whether a column name (lowercased) is in the excluded set. -/
def isExcluded (name : String) : Bool := excludedColumns.contains (lowerStr name)

/-- Whether the character list `pat` occurs as a contiguous run at the front. -/
def leadsWith : List Char → List Char → Bool
  | [], _ => true
  | _ :: _, [] => false
  | p :: ps, c :: cs => p == c && leadsWith ps cs

/-- Whether the character list `pat` occurs contiguously anywhere in `s`. -/
def occursIn (pat : List Char) : List Char → Bool
  | [] => leadsWith pat []
  | c :: cs => leadsWith pat (c :: cs) || occursIn pat cs

/-- Python's `pat in s` substring test. -/
def containsSub (s pat : String) : Bool := occursIn pat.toList s.toList

/-- Python `str.isdigit` over the embedded ASCII alphabet: nonempty and all
characters decimal digits. -/
def pyIsdigit (s : String) : Bool := !s.isEmpty && s.toList.all Char.isDigit

/-- Whether the regex of line 105, `^\d+$`, accepts `s` (over the embedded
ASCII alphabet `\d` is a decimal digit). -/
def uidRegexAccepts (s : String) : Bool := s.toList.all Char.isDigit && !s.isEmpty

/-- The all-digit cell values of a column: the subset the `isdigit` mask of
lines 130-131 selects, then flagged true by the `^\d+$` regex.  When the
boolean indexing of line 134 does not raise, `df[col][valid_ids]` selects
exactly these values. -/
def validVals (vals : List String) : List String :=
  (vals.filter pyIsdigit).filter uidRegexAccepts

/-- Line 135: `valid_ids.sum()`, the number of all-digit values in a column
(the sum never raises; whether it is reached is decided at line 134). -/
def validCount (vals : List String) : Nat := (validVals vals).length

/-- The distinct count `nunique` returns on line 134 when the boolean
indexing there does not raise; the raising case is modelled in
`uidColStats`. -/
def uniqueCount (vals : List String) : Nat := (validVals vals).dedup.length

/-- Whether a column's digit mask selects a proper nonempty subset of its
rows: some cell passes `isdigit` and some cell does not. -/
def mixedDigits (col : List String) : Bool :=
  decide (0 < (col.filter pyIsdigit).length)
    && decide ((col.filter pyIsdigit).length < col.length)

/-- Lines 130-135 for one non-excluded column.  `numeric_values` (line 130)
is a full-length mask, so line 131 never raises and makes `valid_ids` a
boolean Series indexed by the digit-passing rows only.  The indexing
`df[col][valid_ids]` of line 134 then raises pandas `IndexingError`
("Unalignable boolean Series provided as indexer") whenever that index is a
proper nonempty subset of the column's index — i.e. the column mixes digit
and non-digit cells.  An all-digit column gives a full-length mask and a
digit-free column gives an empty mask of object dtype (not treated as a
boolean indexer, selecting nothing), so neither raises.  On success the
result is the pair (`valid_ids.sum()`, `nunique`). -/
def uidColStats (col : List String) : Except String (Nat × Nat) :=
  if mixedDigits col then .error "IndexingError"
  else .ok (validCount col, uniqueCount col)

/-- Lines 121-136: the loop building `possible_uid_cols`, visiting columns in
order, skipping excluded names, and stopping with the raised `IndexingError`
at the first non-excluded column mixing digit and non-digit cells. -/
def buildUidCandidates (df : StrDF) : List String → Except String (List (String × Nat))
  | [] => .ok []
  | name :: rest =>
      if isExcluded name then buildUidCandidates df rest
      else
        match uidColStats (df.col name) with
        | .error e => .error e
        | .ok (v, u) =>
            (buildUidCandidates df rest).map
              (fun tail => if 0 < v ∧ 5 < u then (name, v) :: tail else tail)

/-- One comparison step of Python's `max` with a key function: the current
best is replaced only on a strictly greater key, so ties keep the earlier. -/
def bestStep (acc y : String × Nat) : String × Nat := if y.2 > acc.2 then y else acc

/-- Line 140: `max(possible_uid_cols, key=possible_uid_cols.get)`.  Python's
`max` keeps the first of equal maxima, so the fold replaces the current best
only on a strictly greater count. -/
def pickBest : List (String × Nat) → Option String
  | [] => none
  | x :: xs => some (xs.foldl bestStep x).1

/-- The six target fields written by the name-matching loop of lines 147-163. -/
inductive Target where
  | grade | lastName | firstName | email | teacher | phone
deriving DecidableEq, Repr

/-- The output column name of a target field. -/
def Target.colName : Target → String
  | .grade => "Grade"
  | .lastName => "Last Name"
  | .firstName => "First Name"
  | .email => "Email"
  | .teacher => "Teacher"
  | .phone => "Phone"

/-- Lines 150-161: the `elif` chain mapping a column name to a target field.
Case-insensitive substring rules in source order; only the first match fires. -/
def classify (name : String) : Option Target :=
  let l := lowerStr name
  if containsSub l "grade" then some .grade
  else if containsSub l "last" then some .lastName
  else if containsSub l "first" then some .firstName
  else if containsSub l "email" then some .email
  else if containsSub l "home" || containsSub l "teacher" then some .teacher
  else if containsSub l "phone" then some .phone
  else none

/-- Python `str.capitalize`: first character uppercased, the rest lowercased. -/
def pyCapitalize (s : String) : String :=
  match s.toList with
  | [] => ""
  | c :: rest => String.mk (c.toUpper :: rest.map Char.toLower)

/-- Python `s.split(',')[0]`: the part of `s` before the first comma. -/
def beforeFirstComma (s : String) : String :=
  String.mk (s.toList.takeWhile (fun c => c != ','))

/-- Python `str.strip()`: whitespace trimmed from both ends. -/
def pyStrip (s : String) : String :=
  String.mk (((s.toList.dropWhile Char.isWhitespace).reverse.dropWhile
    Char.isWhitespace).reverse)

/-- Line 161: `re.sub(r'\D', '', str(x))` keeps only the decimal digits. -/
def onlyDigits (s : String) : String := String.mk (s.toList.filter Char.isDigit)

/-- The per-cell value transform of each target field, as applied on the
string cells produced by `astype(str)` (lines 150-161). -/
def Target.transformS : Target → String → String
  | .grade => id
  | .email => id
  | .lastName => pyCapitalize
  | .firstName => pyCapitalize
  | .teacher => fun s => pyStrip (beforeFirstComma s)
  | .phone => onlyDigits

/-- The output frame while it is being built: ordered columns of `pd.NA`-able
string cells (`none` is `pd.NA`). -/
structure OutDF where
  cols : List (String × List (Option String))
deriving DecidableEq, Repr

/-- The column names of the output frame, in order. -/
def OutDF.names (o : OutDF) : List String := o.cols.map Prod.fst

/-- Column lookup on the output frame (first column of that name). -/
def OutDF.col (o : OutDF) (c : String) : List (Option String) :=
  ((o.cols.find? (fun p => p.1 == c)).map Prod.snd).getD []

/-- pandas column assignment `final_df[c] = vals`: overwrite the column in
place if the name exists, otherwise append it on the right. -/
def OutDF.assign (o : OutDF) (c : String) (vals : List String) : OutDF :=
  if o.cols.any (fun p => p.1 == c) then
    ⟨o.cols.map (fun p => if p.1 == c then (p.1, vals.map some) else p)⟩
  else
    ⟨o.cols ++ [(c, vals.map some)]⟩

/-- Line 199: the column list of the frame handed to `bless_df` by `main`. -/
def canonicalColumns : List String :=
  ["Student UID", "First Name", "Last Name", "Grade", "Teacher", "Email", "Phone"]

/-- Line 116: `final_df.reindex(df.index, fill_value=pd.NA)` on the empty
seven-column frame of line 199 gives each canonical column `n` missing cells. -/
def reindexInit (n : Nat) : OutDF :=
  ⟨canonicalColumns.map (fun c => (c, List.replicate n none))⟩

/-- Line 170: `final_df.fillna('')` — remaining missing cells become empty
text; the result is the final output frame. -/
structure FinalDF where
  cols : List (String × List String)
deriving DecidableEq, Repr

/-- The column names of the final frame, in order. -/
def FinalDF.names (f : FinalDF) : List String := f.cols.map Prod.fst

/-- Column lookup on the final frame (first column of that name). -/
def FinalDF.col (f : FinalDF) (c : String) : List String :=
  ((f.cols.find? (fun p => p.1 == c)).map Prod.snd).getD []

/-- Row count of the final frame (length of its first column). -/
def FinalDF.nRows (f : FinalDF) : Nat :=
  match f.cols with
  | [] => 0
  | c :: _ => c.2.length

/-- Line 170: `fillna('')` replaces every `pd.NA` cell with the empty string. -/
def OutDF.fillna (o : OutDF) : FinalDF :=
  ⟨o.cols.map (fun p => (p.1, p.2.map (fun c => c.getD "")))⟩

/-- One iteration of the loop of lines 147-163: classify the column name; on a
match, assign the transformed values to the target column; otherwise, if the
name is in the excluded set, pass the column through under its original name. -/
def processCol (df : StrDF) (o : OutDF) (name : String) : OutDF :=
  match classify name with
  | some t => o.assign t.colName ((df.col name).map t.transformS)
  | none => if isExcluded name then o.assign name (df.col name) else o

/-- The stem of `os.path.splitext` (line 204): the filename up to its last
dot, except that a dot with only dots before it starts no extension. -/
def splitextStem (s : String) : String :=
  let cs := s.toList
  match cs.reverse.findIdx? (· == '.') with
  | none => s
  | some j =>
      let i := cs.length - 1 - j
      if (cs.take i).any (fun c => c != '.') then String.mk (cs.take i) else s

/-- Line 204: the output filename for an input filename. -/
def cleanedFilename (s : String) : String := splitextStem s ++ "_cleaned.csv"

/-- Lines 208: `to_csv(out_filepath, index=False)` — the emitted rows: the
header row of column names first, then one row of field values per table row,
with no index field. -/
def FinalDF.toCsvRows (f : FinalDF) : List (List String) :=
  let n := (f.cols.map (fun p => p.2.length)).foldl Nat.max 0
  f.names :: (List.range n).map (fun i => f.cols.map (fun p => p.2.getD i ""))

/-- An input row whose every cell is missing — what `dropna(how='all')` is
meant to drop. -/
def rowAllMissing (r : List PyVal) : Bool := r.all (· == PyVal.vna)

/-- The last column name (in left-to-right order) that `classify` maps to the
target field `t`; `none` when no column matches. -/
def lastMatch (t : Target) (names : List String) : Option String :=
  names.foldl (fun acc n => if classify n == some t then some n else acc) none

/-- The excluded-named columns among `names` that are new relative to `seen`,
first occurrence kept, in encounter order — the pass-through columns the loop
of lines 147-163 appends on the right of the canonical seven. -/
def passthroughCols (seen : List String) : List String → List String
  | [] => []
  | x :: xs =>
      if isExcluded x = true ∧ x ∉ seen then x :: passthroughCols (seen ++ [x]) xs
      else passthroughCols seen xs

/-- The ordered rule table of the matcher, as the spec presents it: for each
rule, the keywords whose case-insensitive occurrence selects the target. -/
def fieldRules : List (List String × Target) :=
  [(["grade"], .grade), (["last"], .lastName), (["first"], .firstName),
   (["email"], .email), (["home", "teacher"], .teacher), (["phone"], .phone)]

/-- The spec's reading of the matcher: scan the ordered rule table and return
the target of the first rule one of whose keywords occurs in the lowercased
column name.  To be compared with `classify`, the embedding of the code's
`elif` chain. -/
def classifyByOrderedRules (name : String) : Option Target :=
  (fieldRules.find? (fun r => r.1.any (fun pat => containsSub (lowerStr name) pat))).map
    Prod.snd

/-- The lambda of lines 153 and 155 with Python's exception behaviour made
explicit: `x.capitalize() if isinstance(x, str) else x` never raises, because
the `isinstance` guard passes every non-string through unchanged. -/
def lastFirstLambdaE : PyVal → Except String PyVal
  | .vstr s => .ok (.vstr (pyCapitalize s))
  | v => .ok v

/-- The lambda of line 159 with Python's exception behaviour made explicit:
`x.split(',')[0].strip() if pd.notna(x) else x`.  The guard is `pd.notna`, not
`isinstance(x, str)`, so a non-text non-missing value reaches `.split` and
raises `AttributeError`. -/
def teacherLambdaE : PyVal → Except String PyVal
  | .vna => .ok .vna
  | .vstr s => .ok (.vstr (pyStrip (beforeFirstComma s)))
  | .vint _ => .error "AttributeError"

/-- The lambda of line 161 with Python's exception behaviour made explicit:
`re.sub(r'\D', '', str(x))` first coerces with `str`, so it never raises. -/
def phoneLambdaE (v : PyVal) : Except String PyVal :=
  .ok (.vstr (onlyDigits (pyStr v)))

/-- The per-cell operation each branch of the loop applies, in the explicit
exception model.  The Grade and Email branches assign the column unchanged. -/
def Target.lambdaE : Target → PyVal → Except String PyVal
  | .grade => fun v => .ok v
  | .email => fun v => .ok v
  | .lastName => lastFirstLambdaE
  | .firstName => lastFirstLambdaE
  | .teacher => teacherLambdaE
  | .phone => phoneLambdaE

/-- `Series.apply` in the exception model: apply the lambda to each cell of a
string column in order, stopping at the first raised error. -/
def mapME (f : PyVal → Except String PyVal) : List String → Except String (List String)
  | [] => .ok []
  | s :: rest =>
      match f (.vstr s) with
      | .ok v => (mapME f rest).map (fun vs => pyStr v :: vs)
      | .error e => .error e

/-- One iteration of the loop of lines 147-163 in the exception model. -/
def processColE (df : StrDF) (o : OutDF) (name : String) : Except String OutDF :=
  match classify name with
  | some t => (mapME t.lambdaE (df.col name)).map (fun vals => o.assign t.colName vals)
  | none => if isExcluded name then .ok (o.assign name (df.col name)) else .ok o

/-- The loop of lines 147-163 under the `try`/`except` of lines 114-168: on a
raised error the loop stops and the `final_df` built so far is kept, together
with the error message the `except` clause logs. -/
def foldCatch (df : StrDF) : OutDF → List String → OutDF × Option String
  | o, [] => (o, none)
  | o, name :: rest =>
      match processColE df o name with
      | .ok o2 => foldCatch df o2 rest
      | .error e => (o, some e)

/-- Lines 114-168, the body of the `try`: after line 115's cleaning and line
116's reindex, run the UID stage (lines 119-144) and then the column loop
(lines 147-163).  The second component is the error raised inside the body
and caught by the `except` of line 167, if any; the first component is
`final_df` as of that point.  A raise in the UID stage (line 134) leaves
`final_df` as the reindexed all-missing frame, since the `Student UID`
assignment of line 141 and the whole column loop are skipped. -/
def blessDfBody (raw : RawDF) : OutDF × Option String :=
  let df := cleanDf raw
  let f0 := reindexInit df.rows.length
  match buildUidCandidates df df.names with
  | .error e => (f0, some e)
  | .ok cands =>
      let f1 :=
        match pickBest cands with
        | some c => f0.assign "Student UID" (df.col c)
        | none => f0
      foldCatch df f1 df.names

/-- Lines 114-172 of `bless_df` as called from `main` (line 197): the `try`
body runs until it completes or raises; either way line 170's `fillna('')`
blanks whatever frame was built and line 172 returns it. -/
def blessDf (raw : RawDF) : FinalDF := (blessDfBody raw).1.fillna

/-- Whether an exception-model step completed without raising. -/
def exceptOk {α : Type} : Except String α → Bool
  | .ok _ => true
  | .error _ => false

/-! Lemmas on the output-frame operations. -/

lemma find?_map_of_fst {α β : Type} (g : String × α → String × β)
    (hg : ∀ p, (g p).1 = p.1) (c : String) :
    ∀ l : List (String × α),
      (l.map g).find? (fun p => p.1 == c) = (l.find? (fun p => p.1 == c)).map g := by
  intro l
  induction l with
  | nil => rfl
  | cons p ps ih =>
      by_cases hp : p.1 = c
      · simp [List.find?_cons, hg, hp, ih]
      · simp [List.find?_cons, hg, hp, ih]

lemma find?_eq_none_of_any_false {α : Type} (l : List (String × α)) (c : String)
    (h : l.any (fun p => p.1 == c) = false) :
    l.find? (fun p => p.1 == c) = none := by
  refine List.find?_eq_none.mpr ?_
  intro x hx hbeq
  have : l.any (fun p => p.1 == c) = true := List.any_eq_true.mpr ⟨x, hx, hbeq⟩
  simp [h] at this

lemma any_fst_eq_true {α : Type} (l : List (String × α)) (c : String) :
    l.any (fun p => p.1 == c) = true ↔ c ∈ l.map Prod.fst := by
  rw [List.any_eq_true]
  constructor
  · rintro ⟨p, hp, hpc⟩
    exact List.mem_map.mpr ⟨p, hp, by simpa using hpc⟩
  · intro h
    obtain ⟨p, hp, hpc⟩ := List.mem_map.mp h
    exact ⟨p, hp, by simp [hpc]⟩

lemma OutDF.col_assign_self (o : OutDF) (c : String) (vals : List String) :
    (o.assign c vals).col c = vals.map some := by
  unfold OutDF.assign OutDF.col
  cases h : o.cols.any (fun p => p.1 == c) with
  | true =>
      simp only [h, if_true]
      rw [find?_map_of_fst (fun p => if p.1 == c then (p.1, vals.map some) else p)
        (by intro p; by_cases hp : p.1 = c <;> simp [hp]) c]
      obtain ⟨q, hq, hqc⟩ := List.any_eq_true.mp h
      have hsome : (o.cols.find? (fun p => p.1 == c)).isSome := by
        rw [List.find?_isSome]
        exact ⟨q, hq, hqc⟩
      obtain ⟨r, hr⟩ := Option.isSome_iff_exists.mp hsome
      have hrc : r.1 = c := by simpa using List.find?_some hr
      simp [hr, hrc]
  | false =>
      simp only [h, Bool.false_eq_true, if_false]
      rw [List.find?_append, find?_eq_none_of_any_false _ _ h]
      simp [List.find?_cons]

lemma OutDF.col_assign_ne (o : OutDF) (c c' : String) (vals : List String)
    (hne : c' ≠ c) :
    (o.assign c vals).col c' = o.col c' := by
  unfold OutDF.assign OutDF.col
  cases h : o.cols.any (fun p => p.1 == c) with
  | true =>
      simp only [h, if_true]
      rw [find?_map_of_fst (fun p => if p.1 == c then (p.1, vals.map some) else p)
        (by intro p; by_cases hp : p.1 = c <;> simp [hp]) c']
      cases hf : o.cols.find? (fun p => p.1 == c') with
      | none => simp
      | some r =>
          have hrc : r.1 = c' := by simpa using List.find?_some hf
          have hrnc : ¬ (r.1 = c) := by rw [hrc]; exact hne
          simp [hrnc]
  | false =>
      simp only [h, Bool.false_eq_true, if_false]
      rw [List.find?_append]
      have hone : List.find? (fun p => p.1 == c') [(c, vals.map some)] = none := by
        have hb : (c == c') = false := by
          rw [beq_eq_false_iff_ne]
          exact Ne.symm hne
        simp [List.find?_cons, hb]
      rw [hone]
      cases o.cols.find? (fun p => p.1 == c') <;> rfl

lemma OutDF.names_assign (o : OutDF) (c : String) (vals : List String) :
    (o.assign c vals).names = if c ∈ o.names then o.names else o.names ++ [c] := by
  unfold OutDF.assign OutDF.names
  cases h : o.cols.any (fun p => p.1 == c) with
  | true =>
      have hmem : c ∈ o.cols.map Prod.fst := (any_fst_eq_true _ _).mp h
      simp only [h, if_true, hmem, List.map_map]
      refine List.map_congr_left ?_
      intro p _
      by_cases hp : p.1 = c <;> simp [hp]
  | false =>
      have hmem : c ∉ o.cols.map Prod.fst := by
        intro hc
        rw [(any_fst_eq_true _ _).mpr hc] at h
        exact Bool.true_eq_false.mp h
      simp [h, hmem]

lemma OutDF.col_fillna (o : OutDF) (c : String) :
    (o.fillna).col c = (o.col c).map (fun x => x.getD "") := by
  unfold OutDF.fillna FinalDF.col OutDF.col
  dsimp only
  rw [find?_map_of_fst
    (fun p : String × List (Option String) => (p.1, p.2.map (fun x => x.getD "")))
    (fun p => rfl) c]
  cases o.cols.find? (fun p => p.1 == c) <;> simp

lemma OutDF.names_fillna (o : OutDF) : (o.fillna).names = o.names := by
  simp [OutDF.fillna, FinalDF.names, OutDF.names]

lemma reindexInit_col_uid (n : Nat) :
    (reindexInit n).col "Student UID" = List.replicate n none := rfl

lemma reindexInit_col (n : Nat) (t : Target) :
    (reindexInit n).col t.colName = List.replicate n none := by
  cases t <;> rfl

lemma colName_mem_canonical (t : Target) : t.colName ∈ canonicalColumns := by
  cases t <;> decide

lemma colName_ne_uid (t : Target) : t.colName ≠ "Student UID" := by
  cases t <;> decide

lemma colName_inj {t t' : Target} (h : t.colName = t'.colName) : t = t' := by
  cases t <;> cases t' <;> first | rfl | exact absurd h (by decide)

lemma isExcluded_colName (t : Target) : isExcluded t.colName = false := by
  cases t <;> decide

lemma isExcluded_canonical : ∀ c ∈ canonicalColumns, isExcluded c = false := by
  decide

lemma classify_of_excluded (x : String) (h : isExcluded x = true) :
    classify x = none := by
  have hx : lowerStr x = "site" ∨ lowerStr x = "location" ∨ lowerStr x = "building" := by
    simpa [isExcluded, excludedColumns, List.contains_eq_any_beq, List.any_eq_true,
      or_assoc] using h
  unfold classify
  rcases hx with h' | h' | h' <;> rw [h'] <;> decide

/-! Behaviour of the column loop: columns that never write a given output
column leave it unchanged, and the last matching column wins. -/

lemma processCol_col_preserved (df : StrDF) (o : OutDF) (name tgt : String)
    (h1 : ∀ t : Target, t.colName ≠ tgt) (h2 : isExcluded tgt = false) :
    (processCol df o name).col tgt = o.col tgt := by
  unfold processCol
  cases hc : classify name with
  | some t => exact OutDF.col_assign_ne _ _ _ _ (fun h => h1 t h.symm)
  | none =>
      by_cases he : isExcluded name = true
      · simp only [he, if_true]
        refine OutDF.col_assign_ne _ _ _ _ ?_
        intro h
        rw [h, he] at h2
        cases h2
      · simp [he]

lemma foldl_col_preserved (df : StrDF) (names : List String) (o : OutDF) (tgt : String)
    (h1 : ∀ t : Target, t.colName ≠ tgt) (h2 : isExcluded tgt = false) :
    (names.foldl (processCol df) o).col tgt = o.col tgt := by
  induction names generalizing o with
  | nil => rfl
  | cons x xs ih =>
      rw [List.foldl_cons, ih, processCol_col_preserved df o x tgt h1 h2]

lemma lastMatch_append_one (t : Target) (names : List String) (x : String) :
    lastMatch t (names ++ [x]) =
      if classify x == some t then some x else lastMatch t names := by
  unfold lastMatch
  rw [List.foldl_append]
  rfl

lemma foldl_col_lastMatch (df : StrDF) (t : Target) :
    ∀ (names : List String) (o : OutDF),
      (names.foldl (processCol df) o).col t.colName =
        match lastMatch t names with
        | none => o.col t.colName
        | some c => ((df.col c).map t.transformS).map some := by
  intro names
  induction names using List.reverseRecOn with
  | nil => intro o; rfl
  | append_singleton xs x ih =>
      intro o
      rw [List.foldl_append, lastMatch_append_one, List.foldl_cons, List.foldl_nil]
      cases hc : classify x with
      | some t' =>
          by_cases ht : t' = t
          · subst ht
            simp only [beq_self_eq_true, if_true]
            unfold processCol
            rw [hc]
            exact OutDF.col_assign_self _ _ _
          · have hbeq : (some t' == some t) = false := by simp [ht]
            rw [hbeq]
            simp only [Bool.false_eq_true, if_false]
            have hstep : (processCol df (xs.foldl (processCol df) o) x).col t.colName
                = (xs.foldl (processCol df) o).col t.colName := by
              unfold processCol
              rw [hc]
              refine OutDF.col_assign_ne _ _ _ _ ?_
              intro h
              exact ht (colName_inj h.symm)
            rw [hstep, ih]
      | none =>
          have hbeq : ((none : Option Target) == some t) = false := rfl
          rw [hbeq]
          simp only [Bool.false_eq_true, if_false]
          have hstep : (processCol df (xs.foldl (processCol df) o) x).col t.colName
              = (xs.foldl (processCol df) o).col t.colName := by
            unfold processCol
            rw [hc]
            by_cases he : isExcluded x = true
            · simp only [he, if_true]
              refine OutDF.col_assign_ne _ _ _ _ ?_
              intro h
              rw [← h] at he
              rw [isExcluded_colName t] at he
              cases he
            · simp [he]
          rw [hstep, ih]

/-! The exception model agrees with the pure pipeline on string cells. -/

lemma lambdaE_vstr (t : Target) (s : String) :
    t.lambdaE (.vstr s) = .ok (.vstr (t.transformS s)) := by
  cases t <;> rfl

lemma mapME_eq_map (t : Target) (l : List String) :
    mapME t.lambdaE l = .ok (l.map t.transformS) := by
  induction l with
  | nil => rfl
  | cons s rest ih =>
      show (match t.lambdaE (.vstr s) with
        | .ok v => (mapME t.lambdaE rest).map (fun vs => pyStr v :: vs)
        | .error e => .error e) = _
      rw [lambdaE_vstr, ih]
      rfl

lemma processColE_eq (df : StrDF) (o : OutDF) (name : String) :
    processColE df o name = .ok (processCol df o name) := by
  unfold processColE processCol
  cases hc : classify name with
  | some t =>
      dsimp only
      rw [mapME_eq_map]
      rfl
  | none => by_cases he : isExcluded name = true <;> simp [he]

lemma foldCatch_eq (df : StrDF) :
    ∀ (names : List String) (o : OutDF),
      foldCatch df o names = (names.foldl (processCol df) o, none) := by
  intro names
  induction names with
  | nil => intro o; rfl
  | cons x xs ih =>
      intro o
      show (match processColE df o x with
        | .ok o2 => foldCatch df o2 xs
        | .error e => (o, some e)) = _
      rw [processColE_eq]
      rw [List.foldl_cons]
      exact ih _

/-! Python's `max` with a key returns the first element attaining the maximum. -/

lemma bestOf_split :
    ∀ (l : List (String × Nat)) (b : String × Nat),
      ∃ l1 l2, b :: l = l1 ++ (l.foldl bestStep b) :: l2
        ∧ (∀ q ∈ l1, q.2 < (l.foldl bestStep b).2)
        ∧ (∀ q ∈ l2, q.2 ≤ (l.foldl bestStep b).2) := by
  intro l
  induction l with
  | nil =>
      intro b
      exact ⟨[], [], rfl, by simp, by simp⟩
  | cons y ys ih =>
      intro b
      rw [List.foldl_cons]
      by_cases hyb : y.2 > b.2
      · have hstep : bestStep b y = y := by simp [bestStep, hyb]
        rw [hstep]
        obtain ⟨l1, l2, heq, hlt, hle⟩ := ih y
        have hbm : b.2 < (ys.foldl bestStep y).2 := by
          cases l1 with
          | nil =>
              have : y = ys.foldl bestStep y := by
                have := heq
                simp only [List.nil_append] at this
                exact (List.cons.injEq _ _ _ _ ▸ this).1
              rw [← this]
              exact hyb
          | cons a l1' =>
              have hay : a = y := by
                have := heq
                simp only [List.cons_append] at this
                exact ((List.cons.injEq _ _ _ _ ▸ this).1).symm
              have hmem : y ∈ a :: l1' := by rw [hay]; exact List.mem_cons_self _ _
              exact Nat.lt_trans hyb (hlt y hmem)
        refine ⟨b :: l1, l2, ?_, ?_, hle⟩
        · rw [List.cons_append, ← heq]
        · intro q hq
          rcases List.mem_cons.mp hq with hqb | hql
          · rw [hqb]; exact hbm
          · exact hlt q hql
      · have hstep : bestStep b y = b := by simp [bestStep, hyb]
        rw [hstep]
        obtain ⟨l1, l2, heq, hlt, hle⟩ := ih b
        cases l1 with
        | nil =>
            have hb : b = ys.foldl bestStep b ∧ ys = l2 := by
              have := heq
              simp only [List.nil_append] at this
              exact ⟨(List.cons.injEq _ _ _ _ ▸ this).1, (List.cons.injEq _ _ _ _ ▸ this).2⟩
            refine ⟨[], y :: ys, ?_, by simp, ?_⟩
            · simp only [List.nil_append]
              rw [← hb.1]
            · intro q hq
              rcases List.mem_cons.mp hq with hqy | hql
              · rw [hqy, ← hb.1]
                exact Nat.le_of_not_lt hyb
              · rw [hb.2] at hql
                exact hle q hql
        | cons a l1' =>
            have hsplit : a = b ∧ ys = l1' ++ (ys.foldl bestStep b) :: l2 := by
              have := heq
              simp only [List.cons_append] at this
              exact ⟨((List.cons.injEq _ _ _ _ ▸ this).1).symm,
                (List.cons.injEq _ _ _ _ ▸ this).2⟩
            have hbm : b.2 < (ys.foldl bestStep b).2 := by
              refine hlt b ?_
              rw [← hsplit.1]
              exact List.mem_cons_self _ _
            refine ⟨b :: y :: l1', l2, ?_, ?_, hle⟩
            · simp only [List.cons_append]
              rw [← hsplit.2]
            · intro q hq
              rcases List.mem_cons.mp hq with hqb | hq'
              · rw [hqb]; exact hbm
              · rcases List.mem_cons.mp hq' with hqy | hql
                · rw [hqy]
                  exact Nat.lt_of_le_of_lt (Nat.le_of_not_lt hyb) hbm
                · exact hlt q (List.mem_cons_of_mem _ hql)

/-! The shape of the output frame's column list. -/

lemma reindexInit_names (n : Nat) : (reindexInit n).names = canonicalColumns := rfl

lemma not_mem_canonical_of_excluded (x : String) (h : isExcluded x = true) :
    x ∉ canonicalColumns := by
  intro hx
  rw [isExcluded_canonical x hx] at h
  cases h

lemma foldl_names_passthrough (df : StrDF) :
    ∀ (names : List String) (o : OutDF) (e : List String),
      o.names = canonicalColumns ++ e → (∀ x ∈ e, isExcluded x = true) →
      (names.foldl (processCol df) o).names
        = canonicalColumns ++ e ++ passthroughCols e names := by
  intro names
  induction names with
  | nil =>
      intro o e h1 h2
      simpa [passthroughCols] using h1
  | cons x xs ih =>
      intro o e h1 h2
      rw [List.foldl_cons]
      cases hc : classify x with
      | some t =>
          have hex : isExcluded x = false := by
            cases hx : isExcluded x
            · rfl
            · rw [classify_of_excluded x hx] at hc
              cases hc
          have hnames : (processCol df o x).names = o.names := by
            unfold processCol
            rw [hc, OutDF.names_assign]
            have hmem : t.colName ∈ o.names := by
              rw [h1]
              exact List.mem_append_left _ (colName_mem_canonical t)
            simp [hmem]
          rw [ih _ e (by rw [hnames, h1]) h2]
          have : passthroughCols e (x :: xs) = passthroughCols e xs := by
            simp [passthroughCols, hex]
          rw [this]
      | none =>
          by_cases he : isExcluded x = true
          · by_cases hxe : x ∈ e
            · have hnames : (processCol df o x).names = o.names := by
                unfold processCol
                rw [hc]
                simp only [he, if_true]
                rw [OutDF.names_assign]
                have hmem : x ∈ o.names := by
                  rw [h1]
                  exact List.mem_append_right _ hxe
                simp [hmem]
              rw [ih _ e (by rw [hnames, h1]) h2]
              have : passthroughCols e (x :: xs) = passthroughCols e xs := by
                simp [passthroughCols, hxe]
              rw [this]
            · have hnames : (processCol df o x).names = o.names ++ [x] := by
                unfold processCol
                rw [hc]
                simp only [he, if_true]
                rw [OutDF.names_assign]
                have hmem : x ∉ o.names := by
                  rw [h1]
                  intro hx
                  rcases List.mem_append.mp hx with hx1 | hx2
                  · exact not_mem_canonical_of_excluded x he hx1
                  · exact hxe hx2
                simp [hmem]
              have h1' : (processCol df o x).names = canonicalColumns ++ (e ++ [x]) := by
                rw [hnames, h1, List.append_assoc]
              have h2' : ∀ y ∈ e ++ [x], isExcluded y = true := by
                intro y hy
                rcases List.mem_append.mp hy with hy1 | hy2
                · exact h2 y hy1
                · rw [List.mem_singleton.mp hy2]
                  exact he
              rw [ih _ (e ++ [x]) h1' h2']
              have hpass : passthroughCols e (x :: xs)
                  = x :: passthroughCols (e ++ [x]) xs := by
                simp [passthroughCols, he, hxe]
              rw [hpass]
              simp [List.append_assoc]
          · have hnames : processCol df o x = o := by
              unfold processCol
              rw [hc]
              simp [he]
            rw [hnames, ih _ e h1 h2]
            have : passthroughCols e (x :: xs) = passthroughCols e xs := by
              simp [passthroughCols, he]
            rw [this]

/-! The UID stage: per-column statistics with their error path, the candidate
list a raise-free scan builds, and the selection it induces. -/

lemma uidColStats_ok (col : List String) (v u : Nat)
    (h : uidColStats col = .ok (v, u)) :
    mixedDigits col = false ∧ v = validCount col ∧ u = uniqueCount col := by
  unfold uidColStats at h
  by_cases hm : mixedDigits col = true
  · rw [if_pos hm] at h
    cases h
  · rw [if_neg hm] at h
    have h2 := Except.ok.inj h
    exact ⟨by simpa using hm, (congrArg Prod.fst h2).symm, (congrArg Prod.snd h2).symm⟩

lemma mem_buildUidCandidates (df : StrDF) :
    ∀ (names : List String) (cands : List (String × Nat)),
      buildUidCandidates df names = .ok cands →
      ∀ name k, ((name, k) ∈ cands ↔
        name ∈ names ∧ isExcluded name = false ∧
          0 < validCount (df.col name) ∧ 5 < uniqueCount (df.col name) ∧
          k = validCount (df.col name)) := by
  intro names
  induction names with
  | nil =>
      intro cands hok name k
      have hc : ([] : List (String × Nat)) = cands := Except.ok.inj hok
      simp [← hc]
  | cons x rest ih =>
      intro cands hok name k
      by_cases hex : isExcluded x = true
      · rw [show buildUidCandidates df (x :: rest)
            = buildUidCandidates df rest from by rw [buildUidCandidates, if_pos hex]]
          at hok
        rw [ih cands hok name k]
        constructor
        · rintro ⟨hm, hrest⟩
          exact ⟨List.mem_cons_of_mem _ hm, hrest⟩
        · rintro ⟨hm, hne, hrest⟩
          rcases List.mem_cons.mp hm with heq | hm'
          · rw [heq] at hne
            rw [hex] at hne
            cases hne
          · exact ⟨hm', hne, hrest⟩
      · rw [show buildUidCandidates df (x :: rest)
            = match uidColStats (df.col x) with
              | .error e => .error e
              | .ok (v, u) =>
                  (buildUidCandidates df rest).map
                    (fun tail => if 0 < v ∧ 5 < u then (x, v) :: tail else tail)
            from by rw [buildUidCandidates, if_neg hex]] at hok
        cases hstat : uidColStats (df.col x) with
        | error e => rw [hstat] at hok; cases hok
        | ok p =>
            obtain ⟨v, u⟩ := p
            rw [hstat] at hok
            cases hrest : buildUidCandidates df rest with
            | error e => rw [hrest] at hok; cases hok
            | ok tail =>
                rw [hrest] at hok
                have hcands : (if 0 < v ∧ 5 < u then (x, v) :: tail else tail) = cands :=
                  Except.ok.inj hok
                obtain ⟨hmix, hv, hu⟩ := uidColStats_ok _ _ _ hstat
                have hiht := ih tail hrest name k
                by_cases hq : 0 < v ∧ 5 < u
                · rw [if_pos hq] at hcands
                  rw [← hcands]
                  constructor
                  · intro hmem
                    rcases List.mem_cons.mp hmem with heq | hm'
                    · have hnx : name = x := congrArg Prod.fst heq
                      have hkv : k = v := congrArg Prod.snd heq
                      subst hnx
                      refine ⟨List.mem_cons_self _ _, by simpa using hex, ?_, ?_, ?_⟩
                      · rw [← hv]; exact hq.1
                      · rw [← hu]; exact hq.2
                      · rw [hkv, hv]
                    · obtain ⟨hm, hrest'⟩ := hiht.mp hm'
                      exact ⟨List.mem_cons_of_mem _ hm, hrest'⟩
                  · rintro ⟨hm, hne, h0, h5, hk⟩
                    rcases List.mem_cons.mp hm with heq | hm'
                    · subst heq
                      have : k = v := by rw [hk, hv]
                      rw [this]
                      exact List.mem_cons_self _ _
                    · exact List.mem_cons_of_mem _ (hiht.mpr ⟨hm', hne, h0, h5, hk⟩)
                · rw [if_neg hq] at hcands
                  rw [← hcands, hiht]
                  constructor
                  · rintro ⟨hm, hrest'⟩
                    exact ⟨List.mem_cons_of_mem _ hm, hrest'⟩
                  · rintro ⟨hm, hne, h0, h5, hk⟩
                    rcases List.mem_cons.mp hm with heq | hm'
                    · subst heq
                      rw [hv] at hq
                      rw [hu] at hq
                      exact absurd ⟨h0, h5⟩ hq
                    · exact ⟨hm', hne, h0, h5, hk⟩

lemma buildUidCandidates_error_of_mixed (df : StrDF) :
    ∀ (names : List String) (name : String), name ∈ names →
      isExcluded name = false → mixedDigits (df.col name) = true →
      ∃ e, buildUidCandidates df names = .error e := by
  intro names
  induction names with
  | nil => intro name h; cases h
  | cons x rest ih =>
      intro name hmem hex hmix
      by_cases hx : isExcluded x = true
      · rcases List.mem_cons.mp hmem with heq | hm
        · rw [heq, hx] at hex
          cases hex
        · obtain ⟨e, he⟩ := ih name hm hex hmix
          refine ⟨e, ?_⟩
          rw [buildUidCandidates, if_pos hx]
          exact he
      · cases hstat : uidColStats (df.col x) with
        | error e =>
            refine ⟨e, ?_⟩
            rw [buildUidCandidates, if_neg hx, hstat]
        | ok p =>
            obtain ⟨v, u⟩ := p
            obtain ⟨hmix0, hv0, hu0⟩ := uidColStats_ok _ _ _ hstat
            rcases List.mem_cons.mp hmem with heq | hm
            · rw [heq] at hmix
              rw [hmix] at hmix0
              cases hmix0
            · obtain ⟨e, he⟩ := ih name hm hex hmix
              refine ⟨e, ?_⟩
              rw [buildUidCandidates, if_neg hx, hstat, he]
              rfl

lemma pickBest_isSome (l : List (String × Nat)) : (pickBest l).isSome ↔ l ≠ [] := by
  cases l <;> simp [pickBest]

lemma onlyDigits_all (s : String) : (onlyDigits s).toList.all Char.isDigit = true := by
  have h : (onlyDigits s).toList = s.toList.filter Char.isDigit := rfl
  rw [h, List.all_eq_true]
  intro x hx
  exact (List.mem_filter.mp hx).2

/-! The built frame: before the column loop, after a completed loop, and
after a caught raise. -/

lemma preLoop_col_target (df : StrDF) (n : Nat) (sel : Option String) (t : Target) :
    (match sel with
      | some c => (reindexInit n).assign "Student UID" (df.col c)
      | none => reindexInit n).col t.colName = List.replicate n none := by
  cases sel with
  | some c =>
      rw [OutDF.col_assign_ne _ _ _ _ (colName_ne_uid t)]
      exact reindexInit_col n t
  | none => exact reindexInit_col n t

lemma blessDfBody_ok (raw : RawDF) (cands : List (String × Nat))
    (hok : buildUidCandidates (cleanDf raw) (cleanDf raw).names = .ok cands) :
    blessDfBody raw =
      ((cleanDf raw).names.foldl (processCol (cleanDf raw))
        (match pickBest cands with
          | some c => (reindexInit (cleanDf raw).rows.length).assign "Student UID"
              ((cleanDf raw).col c)
          | none => reindexInit (cleanDf raw).rows.length), none) := by
  simp only [blessDfBody]
  rw [hok]
  exact foldCatch_eq _ _ _

lemma blessDfBody_error (raw : RawDF) (e : String)
    (herr : buildUidCandidates (cleanDf raw) (cleanDf raw).names = .error e) :
    blessDfBody raw = (reindexInit (cleanDf raw).rows.length, some e) := by
  simp only [blessDfBody]
  rw [herr]

lemma blessDf_error (raw : RawDF) (e : String)
    (herr : buildUidCandidates (cleanDf raw) (cleanDf raw).names = .error e) :
    blessDf raw = (reindexInit (cleanDf raw).rows.length).fillna := by
  unfold blessDf
  rw [blessDfBody_error raw e herr]

lemma reindex_fillna_col (n : Nat) (c : String) (hc : c ∈ canonicalColumns) :
    ((reindexInit n).fillna).col c = List.replicate n "" := by
  rw [OutDF.col_fillna]
  have hcol : (reindexInit n).col c = List.replicate n none := by
    simp only [canonicalColumns, List.mem_cons, List.not_mem_nil, or_false] at hc
    rcases hc with h | h | h | h | h | h | h <;> rw [h] <;> rfl
  rw [hcol]
  simp [List.map_replicate]

lemma reindex_fillna_names (n : Nat) : ((reindexInit n).fillna).names = canonicalColumns := by
  rw [OutDF.names_fillna, reindexInit_names]

lemma blessDf_col_target (raw : RawDF) (cands : List (String × Nat))
    (hok : buildUidCandidates (cleanDf raw) (cleanDf raw).names = .ok cands)
    (t : Target) :
    (blessDf raw).col t.colName =
      match lastMatch t (cleanDf raw).names with
      | none => List.replicate (cleanDf raw).rows.length ""
      | some c => ((cleanDf raw).col c).map t.transformS := by
  unfold blessDf
  rw [blessDfBody_ok raw cands hok]
  rw [OutDF.col_fillna, foldl_col_lastMatch]
  cases hlm : lastMatch t (cleanDf raw).names with
  | none =>
      rw [preLoop_col_target]
      simp [List.map_replicate]
  | some c =>
      simp [List.map_map, Function.comp]

lemma blessDf_col_target_none (raw : RawDF) (t : Target)
    (h : lastMatch t (cleanDf raw).names = none) :
    (blessDf raw).col t.colName = List.replicate (cleanDf raw).rows.length "" := by
  cases hb : buildUidCandidates (cleanDf raw) (cleanDf raw).names with
  | error e =>
      rw [blessDf_error raw e hb]
      exact reindex_fillna_col _ _ (colName_mem_canonical t)
  | ok cands =>
      have hc := blessDf_col_target raw cands hb t
      rw [h] at hc
      exact hc

lemma blessDf_col_uid_none (raw : RawDF) (cands : List (String × Nat))
    (hok : buildUidCandidates (cleanDf raw) (cleanDf raw).names = .ok cands)
    (h : pickBest cands = none) :
    (blessDf raw).col "Student UID"
      = List.replicate (cleanDf raw).rows.length "" := by
  unfold blessDf
  rw [blessDfBody_ok raw cands hok, h, OutDF.col_fillna,
    foldl_col_preserved _ _ _ _ (fun t => colName_ne_uid t) (by decide),
    reindexInit_col_uid]
  simp [List.map_replicate]

lemma blessDf_col_uid_error (raw : RawDF) (e : String)
    (herr : buildUidCandidates (cleanDf raw) (cleanDf raw).names = .error e) :
    (blessDf raw).col "Student UID"
      = List.replicate (cleanDf raw).rows.length "" := by
  rw [blessDf_error raw e herr]
  exact reindex_fillna_col _ _ (by decide)

/-! Theorems settling the claims. -/

/-- C1: the claim says every fully empty row is dropped before classification,
so a table whose only row is fully missing should produce zero output rows.
The code evaluates differently: line 115 applies `astype(str)` before
`dropna(how='all')`, so the missing cell is already the string "nan" when
`dropna` runs and the row is kept — the output has one row although the input
has zero non-fully-empty rows. -/
theorem fully_empty_row_is_kept :
    (blessDf ⟨["col"], [[PyVal.vna]]⟩).nRows = 1
      ∧ rowAllMissing [PyVal.vna] = true
      ∧ (([[PyVal.vna]] : List (List PyVal)).filter
          (fun r => !(rowAllMissing r))).length = 0 :=
  ⟨rfl, rfl, rfl⟩

/-- C2: the claim says a missing source cell renders as empty text, never as a
null-marker token.  The code evaluates differently: `astype(str)` (line 115)
turns a missing Grade cell into the literal string "nan", which `fillna('')`
(line 170) no longer touches, so the output Grade cell is the token "nan". -/
theorem missing_cell_renders_as_nan_token :
    (blessDf ⟨["grade"], [[PyVal.vna]]⟩).col "Grade" = ["nan"]
      ∧ (blessDf ⟨["grade"], [[PyVal.vna]]⟩).col "Grade" ≠ [""] :=
  ⟨rfl, by decide⟩

/-- C6: the field matcher is a pure function of the column name applying
case-insensitive substring rules in the fixed order grade, last, first,
email, home/teacher, phone, and only the first matching rule applies: the
code's `elif` chain equals first-match search over the ordered rule table. -/
theorem classify_is_ordered_first_match (name : String) :
    classify name = classifyByOrderedRules name := by
  unfold classify classifyByOrderedRules fieldRules
  by_cases h1 : containsSub (lowerStr name) "grade" = true <;>
    by_cases h2 : containsSub (lowerStr name) "last" = true <;>
    by_cases h3 : containsSub (lowerStr name) "first" = true <;>
    by_cases h4 : containsSub (lowerStr name) "email" = true <;>
    by_cases h5 : containsSub (lowerStr name) "home" = true <;>
    by_cases h6 : containsSub (lowerStr name) "teacher" = true <;>
    by_cases h7 : containsSub (lowerStr name) "phone" = true <;>
    simp [h1, h2, h3, h4, h5, h6, h7, List.find?_cons]

/-- C3 counterexample: the claim says a column is selected iff it qualifies
(validCount > 0, more than five distinct all-digit values).  A qualifying
column that also holds a non-digit cell makes line 134 raise IndexingError
(unalignable boolean mask), the exception is caught, and nothing is selected:
the Student UID output column is empty although a qualifying column exists. -/
theorem uid_qualifying_mixed_column_not_selected :
    0 < validCount ((cleanDf ⟨["id"], [[.vstr "1"], [.vstr "2"], [.vstr "3"],
        [.vstr "4"], [.vstr "5"], [.vstr "6"], [.vstr "x"]]⟩).col "id")
      ∧ 5 < uniqueCount ((cleanDf ⟨["id"], [[.vstr "1"], [.vstr "2"], [.vstr "3"],
          [.vstr "4"], [.vstr "5"], [.vstr "6"], [.vstr "x"]]⟩).col "id")
      ∧ isExcluded "id" = false
      ∧ buildUidCandidates (cleanDf ⟨["id"], [[.vstr "1"], [.vstr "2"], [.vstr "3"],
          [.vstr "4"], [.vstr "5"], [.vstr "6"], [.vstr "x"]]⟩)
          (cleanDf ⟨["id"], [[.vstr "1"], [.vstr "2"], [.vstr "3"],
            [.vstr "4"], [.vstr "5"], [.vstr "6"], [.vstr "x"]]⟩).names
        = .error "IndexingError"
      ∧ (blessDf ⟨["id"], [[.vstr "1"], [.vstr "2"], [.vstr "3"],
          [.vstr "4"], [.vstr "5"], [.vstr "6"], [.vstr "x"]]⟩).col "Student UID"
        = ["", "", "", "", "", "", ""] :=
  ⟨by decide, by decide, rfl, rfl, rfl⟩

/-- C3 amended: when the UID scan completes without raising — no non-excluded
column mixes digit and non-digit cells — the candidate list holds exactly the
non-excluded columns with validCount > 0 and more than five distinct all-digit
values, some column is picked iff that list is nonempty, the pick is the first
candidate attaining the maximal validCount, and with no candidate the Student
UID output column is empty text in every row.  When instead some non-excluded
column mixes digit and non-digit cells, line 134 raises, the scan aborts, and
the Student UID column is likewise empty for every row. -/
theorem uid_selector_selection_rule (raw : RawDF) :
    (∀ cands, buildUidCandidates (cleanDf raw) (cleanDf raw).names = .ok cands →
        (∀ name k, ((name, k) ∈ cands ↔
            name ∈ (cleanDf raw).names ∧ isExcluded name = false ∧
              0 < validCount ((cleanDf raw).col name) ∧
              5 < uniqueCount ((cleanDf raw).col name) ∧
              k = validCount ((cleanDf raw).col name)))
          ∧ ((pickBest cands).isSome ↔
              ∃ name ∈ (cleanDf raw).names, isExcluded name = false ∧
                0 < validCount ((cleanDf raw).col name) ∧
                5 < uniqueCount ((cleanDf raw).col name))
          ∧ (∀ c, pickBest cands = some c →
              ∃ l1 p l2, cands = l1 ++ p :: l2 ∧ p.1 = c ∧
                (∀ q ∈ l1, q.2 < p.2) ∧ (∀ q ∈ l2, q.2 ≤ p.2))
          ∧ (pickBest cands = none →
              ∀ s ∈ (blessDf raw).col "Student UID", s = ""))
      ∧ (∀ name, name ∈ (cleanDf raw).names → isExcluded name = false →
          mixedDigits ((cleanDf raw).col name) = true →
          (∃ e, buildUidCandidates (cleanDf raw) (cleanDf raw).names = .error e)
            ∧ (∀ s ∈ (blessDf raw).col "Student UID", s = "")) := by
  constructor
  · intro cands hok
    refine ⟨mem_buildUidCandidates _ _ _ hok, ?_, ?_, ?_⟩
    · rw [pickBest_isSome]
      constructor
      · intro hne
        obtain ⟨p, hp⟩ := List.exists_mem_of_ne_nil _ hne
        obtain ⟨hmem, hex, hv, hu, hk⟩ :=
          (mem_buildUidCandidates _ _ _ hok p.1 p.2).mp hp
        exact ⟨p.1, hmem, hex, hv, hu⟩
      · rintro ⟨name, hmem, hex, hv, hu⟩
        exact List.ne_nil_of_mem
          ((mem_buildUidCandidates _ _ _ hok name _).mpr ⟨hmem, hex, hv, hu, rfl⟩)
    · intro c hsel
      cases cands with
      | nil => simp [pickBest] at hsel
      | cons x xs =>
          simp only [pickBest, Option.some.injEq] at hsel
          obtain ⟨l1, l2, heq, hlt, hle⟩ := bestOf_split xs x
          exact ⟨l1, xs.foldl bestStep x, l2, heq, hsel, hlt, hle⟩
    · intro hnone s hs
      rw [blessDf_col_uid_none raw cands hok hnone] at hs
      exact List.eq_of_mem_replicate hs
  · intro name hmem hex hmix
    obtain ⟨e, he⟩ :=
      buildUidCandidates_error_of_mixed (cleanDf raw) (cleanDf raw).names name hmem hex hmix
    refine ⟨⟨e, he⟩, ?_⟩
    intro s hs
    rw [blessDf_col_uid_error raw e he] at hs
    exact List.eq_of_mem_replicate hs

/-- C3 witness: on the spec's example table — a constant excluded `site`
column next to a `studentId` column with six distinct all-digit values — the
scan completes, and the selection is the first maximal candidate. -/
theorem uid_selector_selection_rule_witness :
    ∃ l1 p l2, ([("studentId", 6)] : List (String × Nat)) = l1 ++ p :: l2 ∧
      p.1 = "studentId" ∧ (∀ q ∈ l1, q.2 < p.2) ∧ (∀ q ∈ l2, q.2 ≤ p.2) :=
  ((uid_selector_selection_rule ⟨["site", "studentId"],
      [[.vstr "100", .vstr "1001"], [.vstr "100", .vstr "1002"],
       [.vstr "100", .vstr "1003"], [.vstr "100", .vstr "1004"],
       [.vstr "100", .vstr "1005"], [.vstr "100", .vstr "1006"]]⟩).1
    [("studentId", 6)] (by rfl)).2.2.1 "studentId" (by rfl)

/-- C4 counterexample: the claim says a column whose name matches a
named-field rule (here "grade") is never considered a UID candidate.  In the
code the UID loop (lines 121-136) skips only the excluded names, so an
all-digit `grade` column with six distinct values is scanned, becomes the only
candidate, and is selected as the Student UID source even though it also
populates Grade. -/
theorem grade_column_selected_as_uid :
    classify "grade" = some Target.grade
      ∧ buildUidCandidates (cleanDf ⟨["grade"],
          [[.vstr "1"], [.vstr "2"], [.vstr "3"], [.vstr "4"], [.vstr "5"], [.vstr "6"]]⟩)
          (cleanDf ⟨["grade"],
            [[.vstr "1"], [.vstr "2"], [.vstr "3"], [.vstr "4"], [.vstr "5"],
             [.vstr "6"]]⟩).names
        = .ok [("grade", 6)]
      ∧ pickBest [("grade", 6)] = some "grade"
      ∧ (blessDf ⟨["grade"],
          [[.vstr "1"], [.vstr "2"], [.vstr "3"], [.vstr "4"], [.vstr "5"], [.vstr "6"]]⟩).col
          "Student UID" = ["1", "2", "3", "4", "5", "6"] :=
  ⟨rfl, rfl, rfl, rfl⟩

/-- C4 amended: the UID scan's candidate filter ignores the named-field rules
entirely — when the scan completes without raising, any column outside the
excluded-name set with a positive all-digit count and more than five distinct
all-digit values is a candidate even when its name matches a named-field
rule, and its presence makes the selector pick some column.  (On a column
mixing digit and non-digit cells the scan instead raises, and nothing is
selected.) -/
theorem uid_candidacy_ignores_name_rules (raw : RawDF) (cands : List (String × Nat))
    (name : String) (t : Target)
    (hok : buildUidCandidates (cleanDf raw) (cleanDf raw).names = .ok cands)
    (hcl : classify name = some t) (hmem : name ∈ (cleanDf raw).names)
    (hex : isExcluded name = false)
    (hv : 0 < validCount ((cleanDf raw).col name))
    (hu : 5 < uniqueCount ((cleanDf raw).col name)) :
    (name, validCount ((cleanDf raw).col name)) ∈ cands ∧ (pickBest cands).isSome := by
  have hc := (mem_buildUidCandidates _ _ _ hok name
    (validCount ((cleanDf raw).col name))).mpr ⟨hmem, hex, hv, hu, rfl⟩
  exact ⟨hc, (pickBest_isSome _).mpr (List.ne_nil_of_mem hc)⟩

/-- C4 witness: the amended statement applied to the all-digit grade table. -/
theorem uid_candidacy_ignores_name_rules_witness :
    ("grade", validCount ((cleanDf ⟨["grade"],
        [[.vstr "1"], [.vstr "2"], [.vstr "3"], [.vstr "4"], [.vstr "5"], [.vstr "6"]]⟩).col
        "grade"))
      ∈ ([("grade", 6)] : List (String × Nat))
      ∧ (pickBest [("grade", 6)]).isSome :=
  uid_candidacy_ignores_name_rules ⟨["grade"],
    [[.vstr "1"], [.vstr "2"], [.vstr "3"], [.vstr "4"], [.vstr "5"], [.vstr "6"]]⟩
    [("grade", 6)] "grade" Target.grade rfl rfl (by decide) rfl (by decide) (by decide)

/-- C5 counterexample: the claim says a "student name" column is split into
First Name and Last Name (the spec's own example expecting First =
["John", "X"]).  The code has no splitting rule: the exact name
"Student Name" matches nothing in the `elif` chain, so both name fields stay
empty. -/
theorem student_name_column_not_split :
    (blessDf ⟨["Student Name"], [[.vstr "Doe, John"], [.vstr "X"]]⟩).col "First Name"
        = ["", ""]
      ∧ (blessDf ⟨["Student Name"], [[.vstr "Doe, John"], [.vstr "X"]]⟩).col "Last Name"
        = ["", ""]
      ∧ (blessDf ⟨["Student Name"], [[.vstr "Doe, John"], [.vstr "X"]]⟩).col "First Name"
        ≠ ["John", "X"] :=
  ⟨rfl, rfl, by decide⟩

/-- C5 amended: the code has no combined-name split rule.  A column named
exactly "Student Name" matches no rule of the classifier and is neither split
nor copied: on the single-column table with that name, First Name and Last
Name are empty for every row.  A name that merely contains "student name" is
handled by the ordinary keyword rules alone — "Student Name (First)" matches
the "first" rule and is copied there, not split. -/
theorem student_name_column_ignored (cells : List PyVal) :
    classify "Student Name" = none
      ∧ classify "Student Name (First)" = some Target.firstName
      ∧ (blessDf ⟨["Student Name"], cells.map (fun c => [c])⟩).col "First Name"
          = List.replicate cells.length ""
      ∧ (blessDf ⟨["Student Name"], cells.map (fun c => [c])⟩).col "Last Name"
          = List.replicate cells.length "" := by
  have hrows : (cleanDf ⟨["Student Name"], cells.map (fun c => [c])⟩).rows
      = cells.map (fun c => [pyStr c]) := by
    unfold cleanDf dropnaAllStr astypeStr
    dsimp only
    rw [List.map_map]
    refine List.filter_eq_self.mpr ?_
    intro r hr
    obtain ⟨c, hc, hrc⟩ := List.mem_map.mp hr
    rw [← hrc]
    rfl
  have hlen : (cleanDf ⟨["Student Name"], cells.map (fun c => [c])⟩).rows.length
      = cells.length := by
    rw [hrows, List.length_map]
  refine ⟨rfl, rfl, ?_, ?_⟩
  · have h := blessDf_col_target_none ⟨["Student Name"], cells.map (fun c => [c])⟩
      Target.firstName rfl
    rw [hlen] at h
    exact h
  · have h := blessDf_col_target_none ⟨["Student Name"], cells.map (fun c => [c])⟩
      Target.lastName rfl
    rw [hlen] at h
    exact h

/-- C7 counterexample: the claim says the output Grade column always equals
the values of the last grade-matching source column.  With the mixed column
"grade a" = ["9", "x"] next to "grade b" = ["10", "11"], line 134 raises
while scanning "grade a" before the name loop runs, so Grade is ["", ""]
instead of the last matching column's ["10", "11"]. -/
theorem last_match_skipped_on_raise :
    lastMatch Target.grade (cleanDf ⟨["grade a", "grade b"],
        [[.vstr "9", .vstr "10"], [.vstr "x", .vstr "11"]]⟩).names = some "grade b"
      ∧ ((cleanDf ⟨["grade a", "grade b"],
          [[.vstr "9", .vstr "10"], [.vstr "x", .vstr "11"]]⟩).col "grade b").map
          Target.grade.transformS = ["10", "11"]
      ∧ (blessDf ⟨["grade a", "grade b"],
          [[.vstr "9", .vstr "10"], [.vstr "x", .vstr "11"]]⟩).col "Grade" = ["", ""]
      ∧ (blessDf ⟨["grade a", "grade b"],
          [[.vstr "9", .vstr "10"], [.vstr "x", .vstr "11"]]⟩).col "Grade"
        ≠ ["10", "11"] :=
  ⟨rfl, rfl, rfl, by decide⟩

/-- C7 amended: when the UID scan completes without raising, the output
column for a target field equals the per-field transform applied to the last
source column (in left-to-right order) the matcher classifies to that field —
sequential overwrite, last column wins, each populated field deriving from
exactly that one source column.  When the scan raises, the name loop is
skipped and every target column is empty instead. -/
theorem last_matching_column_wins (raw : RawDF) (cands : List (String × Nat))
    (t : Target) (c : String)
    (hok : buildUidCandidates (cleanDf raw) (cleanDf raw).names = .ok cands)
    (h : lastMatch t (cleanDf raw).names = some c) :
    (blessDf raw).col t.colName = ((cleanDf raw).col c).map t.transformS := by
  have hb := blessDf_col_target raw cands hok t
  rw [h] at hb
  exact hb

/-- C7 witness: with two all-digit grade-matching columns (so the scan
completes), the second column wins. -/
theorem last_matching_column_wins_witness :
    lastMatch Target.grade
        (cleanDf ⟨["grade a", "grade b"], [[.vstr "1", .vstr "2"]]⟩).names
        = some "grade b"
      ∧ (blessDf ⟨["grade a", "grade b"], [[.vstr "1", .vstr "2"]]⟩).col
          Target.grade.colName
        = ((cleanDf ⟨["grade a", "grade b"], [[.vstr "1", .vstr "2"]]⟩).col
            "grade b").map Target.grade.transformS :=
  ⟨rfl, last_matching_column_wins ⟨["grade a", "grade b"], [[.vstr "1", .vstr "2"]]⟩
    [] Target.grade "grade b" rfl rfl⟩

/-- C8 counterexample: the claim says every per-field value transform
tolerates non-text or missing input without raising.  The teacher lambda of
line 159 guards only with `pd.notna`, not `isinstance(x, str)`, so a non-text
non-missing value (an int) reaches `.split(',')` and raises AttributeError. -/
theorem teacher_transform_raises_on_nontext :
    teacherLambdaE (PyVal.vint 0) = Except.error "AttributeError"
      ∧ exceptOk (teacherLambdaE (PyVal.vint 0)) = false :=
  ⟨rfl, rfl⟩

/-- C8 amended: no exception escapes the normalization step — every error
raised inside the `try` body is caught at the boundary and the frame built as
of the failure point, with missing values blanked, is returned.  The one
internal raiser is the UID scan's boolean indexing (line 134, IndexingError
on a column mixing digit and non-digit cells), which leaves the reindexed
all-missing frame to be blanked and returned; the column loop itself never
raises, the capitalize and phone lambdas tolerate every input, and the
teacher lambda tolerates missing and text input, though not non-text
non-missing input (unreachable after the `astype(str)` coercion of
line 115). -/
theorem normalization_never_raises (raw : RawDF) (o : OutDF) (names : List String) :
    (∀ e, (blessDfBody raw).2 = some e →
        buildUidCandidates (cleanDf raw) (cleanDf raw).names = .error e ∧
          blessDf raw = (reindexInit (cleanDf raw).rows.length).fillna)
      ∧ (foldCatch (cleanDf raw) o names).2 = none
      ∧ (∀ v, exceptOk (lastFirstLambdaE v) = true)
      ∧ (∀ v, exceptOk (phoneLambdaE v) = true)
      ∧ exceptOk (teacherLambdaE PyVal.vna) = true
      ∧ (∀ s, exceptOk (teacherLambdaE (PyVal.vstr s)) = true) := by
  refine ⟨?_, ?_, ?_, fun v => rfl, rfl, fun s => rfl⟩
  · intro e he
    cases hb : buildUidCandidates (cleanDf raw) (cleanDf raw).names with
    | error e2 =>
        rw [blessDfBody_error raw e2 hb] at he
        have he2 : e2 = e := Option.some.inj he
        subst he2
        exact ⟨rfl, blessDf_error raw e2 hb⟩
    | ok cands =>
        rw [blessDfBody_ok raw cands hb] at he
        cases he
  · rw [foldCatch_eq]
  · intro v
    cases v <;> rfl

/-- C8 witness: on a column mixing a digit cell with a non-digit cell the
body raises IndexingError, and the caught run returns the blanked reindexed
frame. -/
theorem normalization_never_raises_witness :
    buildUidCandidates (cleanDf ⟨["id"], [[PyVal.vstr "1"], [PyVal.vstr "x"]]⟩)
        (cleanDf ⟨["id"], [[PyVal.vstr "1"], [PyVal.vstr "x"]]⟩).names
      = .error "IndexingError"
      ∧ blessDf ⟨["id"], [[PyVal.vstr "1"], [PyVal.vstr "x"]]⟩
        = (reindexInit
            (cleanDf ⟨["id"], [[PyVal.vstr "1"], [PyVal.vstr "x"]]⟩).rows.length).fillna :=
  (normalization_never_raises ⟨["id"], [[PyVal.vstr "1"], [PyVal.vstr "x"]]⟩ ⟨[]⟩ []).1
    "IndexingError" (by rfl)

/-- C9 counterexample: the claim says pass-through excluded columns always
follow the seven canonical columns.  On a table with a "site" column and a
mixed digit/non-digit "id" column, line 134 raises before the name loop runs,
so the output has exactly the seven canonical columns and no "site". -/
theorem passthrough_skipped_on_raise :
    passthroughCols [] (cleanDf ⟨["site", "id"],
        [[.vstr "a", .vstr "1"], [.vstr "b", .vstr "x"]]⟩).names = ["site"]
      ∧ (blessDf ⟨["site", "id"],
          [[.vstr "a", .vstr "1"], [.vstr "b", .vstr "x"]]⟩).names = canonicalColumns
      ∧ (blessDf ⟨["site", "id"],
          [[.vstr "a", .vstr "1"], [.vstr "b", .vstr "x"]]⟩).names
        ≠ canonicalColumns ++ passthroughCols [] (cleanDf ⟨["site", "id"],
            [[.vstr "a", .vstr "1"], [.vstr "b", .vstr "x"]]⟩).names :=
  ⟨rfl, rfl, by decide⟩

/-- C9 amended: the emitted CSV always has the header row first, one field
per named column per row (no index field), and the output filename is the
input filename's stem followed by "_cleaned.csv".  When the UID scan
completes without raising, the columns are the seven canonical ones in fixed
order followed by the pass-through excluded columns under their original
names in first-encounter order; when the scan raises, the output has exactly
the seven canonical columns. -/
theorem output_columns_and_filename (raw : RawDF) (fname : String) :
    (∀ cands, buildUidCandidates (cleanDf raw) (cleanDf raw).names = .ok cands →
        (blessDf raw).names
          = canonicalColumns ++ passthroughCols [] (cleanDf raw).names)
      ∧ (∀ e, buildUidCandidates (cleanDf raw) (cleanDf raw).names = .error e →
          (blessDf raw).names = canonicalColumns)
      ∧ (blessDf raw).toCsvRows.head? = some (blessDf raw).names
      ∧ (∀ r ∈ (blessDf raw).toCsvRows, r.length = (blessDf raw).names.length)
      ∧ cleanedFilename fname = splitextStem fname ++ "_cleaned.csv" := by
  refine ⟨?_, ?_, rfl, ?_, rfl⟩
  · intro cands hok
    unfold blessDf
    rw [blessDfBody_ok raw cands hok]
    rw [OutDF.names_fillna]
    have hf1 : (match pickBest cands with
        | some c => (reindexInit (cleanDf raw).rows.length).assign "Student UID"
            ((cleanDf raw).col c)
        | none => reindexInit (cleanDf raw).rows.length).names = canonicalColumns := by
      cases pickBest cands with
      | some c =>
          rw [OutDF.names_assign, reindexInit_names]
          simp [show "Student UID" ∈ canonicalColumns from by decide]
      | none => exact reindexInit_names _
    rw [foldl_names_passthrough (cleanDf raw) (cleanDf raw).names _ []
      (by rw [hf1]; simp) (by simp)]
    simp
  · intro e herr
    rw [blessDf_error raw e herr]
    exact reindex_fillna_names _
  · intro r hr
    unfold FinalDF.toCsvRows at hr
    rcases List.mem_cons.mp hr with hr1 | hr2
    · rw [hr1]
    · obtain ⟨i, hi, hri⟩ := List.mem_map.mp hr2
      rw [← hri]
      simp [FinalDF.names]

/-- C9 witness: on a table with a pass-through "Site" column (digit-free, so
the scan completes), the columns are the canonical seven plus "Site", and the
data row of the emitted CSV has exactly one field per named column. -/
theorem output_columns_and_filename_witness :
    (blessDf ⟨["Site"], [[PyVal.vstr "x"]]⟩).names
        = canonicalColumns ++ passthroughCols []
            (cleanDf ⟨["Site"], [[PyVal.vstr "x"]]⟩).names
      ∧ (["", "", "", "", "", "", "", "x"] : List String).length
        = (blessDf ⟨["Site"], [[PyVal.vstr "x"]]⟩).names.length :=
  ⟨(output_columns_and_filename ⟨["Site"], [[PyVal.vstr "x"]]⟩ "roster.csv").1
      [] (by rfl),
   (output_columns_and_filename ⟨["Site"], [[PyVal.vstr "x"]]⟩ "roster.csv").2.2.2.1
     ["", "", "", "", "", "", "", "x"] (by decide)⟩

/-- C10: every cell of the output Phone column is a possibly empty string of
decimal digits — whether it comes from the phone transform, from the blank
fill of an unpopulated column, or from the blanked frame after a caught UID
raise — and a missing source cell normalizes to the empty string because its
coerced text "nan" contains no digits. -/
theorem phone_output_digits_only (raw : RawDF) :
    (∀ s ∈ (blessDf raw).col "Phone", s.toList.all Char.isDigit = true)
      ∧ Target.phone.transformS (pyStr PyVal.vna) = "" := by
  refine ⟨?_, rfl⟩
  intro s hs
  have hs' : s ∈ (blessDf raw).col Target.phone.colName := hs
  cases hb : buildUidCandidates (cleanDf raw) (cleanDf raw).names with
  | error e =>
      rw [blessDf_error raw e hb] at hs'
      rw [reindex_fillna_col _ _ (colName_mem_canonical Target.phone)] at hs'
      rw [List.eq_of_mem_replicate hs']
      rfl
  | ok cands =>
      have h := blessDf_col_target raw cands hb Target.phone
      cases hlm : lastMatch Target.phone (cleanDf raw).names with
      | none =>
          rw [hlm] at h
          rw [h] at hs'
          rw [List.eq_of_mem_replicate hs']
          rfl
      | some c =>
          rw [hlm] at h
          rw [h] at hs'
          obtain ⟨x, hx, hxs⟩ := List.mem_map.mp hs'
          rw [← hxs]
          exact onlyDigits_all x

/-- C10 witness: the spec's phone example normalizes to an all-digit string. -/
theorem phone_output_digits_only_witness :
    ("5551234567".toList.all Char.isDigit = true)
      ∧ Target.phone.transformS (pyStr PyVal.vna) = "" :=
  ⟨(phone_output_digits_only ⟨["phone"], [[PyVal.vstr "(555) 123-4567"]]⟩).1
      "5551234567" (by decide),
   rfl⟩

end Cleanup
